import Mathlib

/-! snap2done_ios: the nanopb release shim and the auth stream-handler declaration.

The three files of `ios/Runner` are headers.  What they do is decided by the C
preprocessor, so the embedding is:

* the identifiers, macro definitions and declarations the headers mention;
* each header as the list of its lines (`NanopbHelpers`, `NanopbWrapper`);
* the preprocessor as a function on a state of macro definitions and emitted
  declarations (`activeLine`, `processLines`, `includeHeader`, `runTU`);
* the execution of a call statement over the emitted declarations (`exec`),
  with the runtime's release routine as a parameter.

The nanopb runtime headers are not part of the repository; what they provide
for the name `pb_release` is the parameter `Runtime`.
-/

namespace Snap2Done

/-! ## Identifiers, statements, macros -/

/-- Identifiers that can be defined as a macro or declared as a function. -/
inductive Name where
  | NanopbHelpers_h
  | NanopbWrapper_h
  | pb_release
  | pb_release_wrapper
  | other (n : Nat)
  deriving DecidableEq

/-- Pointer values. -/
abbrev Ptr := Nat

/-- Argument expressions of a call: the two parameter names the headers use, or
an expression that denotes the pointer `p` and contains no macro name. -/
inductive Arg where
  | fields
  | dest_struct
  | lit (p : Ptr)
  deriving DecidableEq

/-- A statement `callee(args);`. -/
inductive Stmt where
  | call (callee : Name) (args : List Arg)
  deriving DecidableEq

/-- A macro definition: `params = none` for an object-like macro, `some ps` for
a function-like one; `body` is the replacement list. -/
structure MacroDef where
  params : Option (List Arg)
  body : List Stmt
  deriving DecidableEq

/-- An emitted declaration: a prototype `void f(params);` or a definition
`void f(params) { body }`, the body already macro-expanded. -/
inductive Decl where
  | proto (f : Name) (params : List Arg)
  | fundef (f : Name) (params : List Arg) (body : List Stmt)
  deriving DecidableEq

/-- The nanopb headers the two shims include. -/
inductive SysHeader where
  | pb
  | pb_common
  | pb_decode
  | pb_encode
  deriving DecidableEq

/-- A line of a header. -/
inductive Line where
  | ifndef (n : Name)
  | define (n : Name) (m : MacroDef)
  | includeSys (h : SysHeader)
  | proto (f : Name) (params : List Arg)
  | fundef (f : Name) (params : List Arg) (body : List Stmt)
  | endif
  deriving DecidableEq

/-- What the linked nanopb runtime provides for `pb_release` in
`<nanopb/pb_decode.h>`: a macro definition, a function declaration, both or
neither. -/
structure Runtime where
  releaseMacro : Option MacroDef
  releaseFn : Bool
  deriving DecidableEq

/-- Preprocessor state: macro definitions (most recent first, every `#define`
adds one entry), runtime headers already included, declarations emitted so far
(in order). -/
structure PPState where
  macros : List (Name × MacroDef)
  sys : List SysHeader
  decls : List Decl
  deriving DecidableEq

/-- The state at the start of a translation unit. -/
def PPState.init : PPState := ⟨[], [], []⟩

/-! ## The headers -/

/-- The macro of `NanopbHelpers.h` line 11:
`#define pb_release(fields, dest_struct) pb_release_wrapper(fields, dest_struct)`. -/
def shimMacro : MacroDef :=
  ⟨some [.fields, .dest_struct], [.call .pb_release_wrapper [.fields, .dest_struct]]⟩

/-- The prototype of `NanopbHelpers.h` line 12:
`void pb_release_wrapper(const pb_msgdesc_t *fields, void *dest_struct);`. -/
def wrapperProto : Decl := .proto .pb_release_wrapper [.fields, .dest_struct]

/-- Lines 1 to 7 of `NanopbHelpers.h`: include guard and runtime includes. -/
def helpersPrologue : List Line :=
  [ .ifndef .NanopbHelpers_h,
    .define .NanopbHelpers_h ⟨none, []⟩,
    .includeSys .pb,
    .includeSys .pb_common,
    .includeSys .pb_decode,
    .includeSys .pb_encode ]

/-- Lines 10 to 13 of `NanopbHelpers.h`: the guarded definition of `pb_release`. -/
def releaseShim : List Line :=
  [ .ifndef .pb_release,
    .define .pb_release shimMacro,
    .proto .pb_release_wrapper [.fields, .dest_struct],
    .endif ]

/-- The file `NanopbHelpers.h`. -/
def NanopbHelpers : List Line :=
  helpersPrologue ++ releaseShim ++ [.endif]

/-- The file `NanopbWrapper.h`. -/
def NanopbWrapper : List Line :=
  [ .ifndef .NanopbWrapper_h,
    .define .NanopbWrapper_h ⟨none, []⟩,
    .includeSys .pb_common,
    .includeSys .pb_decode,
    .includeSys .pb_encode,
    .fundef .pb_release_wrapper [.fields, .dest_struct]
      [.call .pb_release [.fields, .dest_struct]],
    .endif ]

/-- The two shim headers. -/
inductive Header where
  | NanopbHelpers
  | NanopbWrapper
  deriving DecidableEq

/-- The lines of a header. -/
def Header.lines : Header → List Line
  | .NanopbHelpers => Snap2Done.NanopbHelpers
  | .NanopbWrapper => Snap2Done.NanopbWrapper

/-! ## The preprocessor -/

/-- The current definition of a macro name: the most recent `#define`. -/
def lookupMacro : List (Name × MacroDef) → Name → Option MacroDef
  | [], _ => none
  | (k, m) :: rest, n => if k = n then some m else lookupMacro rest n

/-- Replace a parameter by the argument at the same position. -/
def substArg : List Arg → List Arg → Arg → Arg
  | p :: ps, x :: xs, a => if a = p then x else substArg ps xs a
  | _, _, a => a

/-- The replacement list of a function-like macro with the arguments substituted
for the parameters; `none` when the macro is object-like or the number of
arguments differs. -/
def instantiate (m : MacroDef) (args : List Arg) : Option (List Stmt) :=
  match m.params with
  | some ps =>
    if ps.length = args.length then
      some (m.body.map fun st =>
        match st with
        | .call c xs => .call c (xs.map (substArg ps args)))
    else none
  | none => none

/-- Macro expansion of a statement.  `hide` holds the macros being expanded,
which are not expanded again while their replacement is rescanned.  Every
nested rescan hides one more defined name, so `fuel` equal to the number of
definitions is never exhausted before expansion stops. -/
def expandStmt (ms : List (Name × MacroDef)) : Nat → List Name → Stmt → List Stmt
  | 0, _, st => [st]
  | fuel + 1, hide, .call c args =>
    if c ∈ hide then [.call c args]
    else
      match lookupMacro ms c with
      | some m =>
        match instantiate m args with
        | some body => body.flatMap (fun st => expandStmt ms fuel (c :: hide) st)
        | none => [.call c args]
      | none => [.call c args]

/-- Macro expansion of a statement at a point of the translation unit. -/
def expand (ms : List (Name × MacroDef)) (st : Stmt) : List Stmt :=
  expandStmt ms ms.length [] st

/-- Macro expansion of a statement list. -/
def expandStmts (ms : List (Name × MacroDef)) (sts : List Stmt) : List Stmt :=
  sts.flatMap (expand ms)

/-- Inclusion of a runtime header: guarded by the header itself; `pb_decode.h`
brings what the runtime provides for `pb_release`. -/
def includeSys (rt : Runtime) (h : SysHeader) (s : PPState) : PPState :=
  if h ∈ s.sys then s
  else if h = .pb_decode then
    { macros :=
        match rt.releaseMacro with
        | some m => (.pb_release, m) :: s.macros
        | none => s.macros
      sys := h :: s.sys
      decls :=
        if rt.releaseFn then s.decls ++ [.proto .pb_release [.fields, .dest_struct]]
        else s.decls }
  else { s with sys := h :: s.sys }

/-- An active line: a directive is obeyed, a declaration is emitted; a function
body is macro-expanded where it stands.  The result carries the number of
conditionals that start skipping (1 after a failed `#ifndef`). -/
def activeLine (rt : Runtime) (l : Line) (s : PPState) : Nat × PPState :=
  match l with
  | .ifndef n => if (lookupMacro s.macros n).isSome then (1, s) else (0, s)
  | .define n m => (0, { s with macros := (n, m) :: s.macros })
  | .includeSys h => (0, includeSys rt h s)
  | .proto f ps => (0, { s with decls := s.decls ++ [.proto f ps] })
  | .fundef f ps body =>
    (0, { s with decls := s.decls ++ [.fundef f ps (expandStmts s.macros body)] })
  | .endif => (0, s)

/-- A line inside a skipped group: only the nesting of conditionals is followed. -/
def skippedLine (l : Line) (skip : Nat) : Nat :=
  match l with
  | .ifndef _ => skip + 1
  | .endif => skip - 1
  | _ => skip

/-- One line of a header.  `skip = 0` when the line is active; otherwise `skip`
is the number of open conditionals, the failed one included. -/
def processLine (rt : Runtime) (l : Line) (skip : Nat) (s : PPState) : Nat × PPState :=
  if skip = 0 then activeLine rt l s else (skippedLine l skip, s)

/-- The lines of a header in order. -/
def processLines (rt : Runtime) : List Line → Nat → PPState → Nat × PPState
  | [], skip, s => (skip, s)
  | l :: ls, skip, s =>
    match processLine rt l skip s with
    | (k, s1) => processLines rt ls k s1

/-- Inclusion of one of the two shim headers. -/
def includeHeader (rt : Runtime) (h : Header) (s : PPState) : PPState :=
  (processLines rt h.lines 0 s).2

/-- A translation unit that includes the given headers in order. -/
def runTU (rt : Runtime) (tu : List Header) : PPState :=
  tu.foldl (fun s h => includeHeader rt h s) PPState.init

/-! ## Execution of call statements -/

/-- Outcome of running statements: normal completion with the runtime state and
the calls made to the runtime's release routine, failure of the runtime's
routine, exhaustion of the step budget, or a call that resolves to nothing
defined in the translation unit. -/
inductive Outcome (σ : Type) where
  | done (s : σ) (calls : List (Ptr × Ptr))
  | failed (calls : List (Ptr × Ptr))
  | outOfFuel (calls : List (Ptr × Ptr))
  | unresolved (n : Name)

/-- The first definition of function `f` among the declarations. -/
def findDef : List Decl → Name → Option (List Arg × List Stmt)
  | [], _ => none
  | .fundef g ps body :: rest, f => if g = f then some (ps, body) else findDef rest f
  | .proto _ _ :: rest, f => findDef rest f

/-- Whether a prototype of `f` is among the declarations. -/
def hasProto : List Decl → Name → Bool
  | [], _ => false
  | .proto g _ :: rest, f => g = f || hasProto rest f
  | .fundef _ _ _ :: rest, f => hasProto rest f

/-- The value bound to a parameter name. -/
def lookupArg : List (Arg × Ptr) → Arg → Option Ptr
  | [], _ => none
  | (k, v) :: rest, a => if k = a then some v else lookupArg rest a

/-- The value of an argument expression in a function body. -/
def evalArg (env : List (Arg × Ptr)) : Arg → Option Ptr
  | .lit p => some p
  | .fields => lookupArg env .fields
  | .dest_struct => lookupArg env .dest_struct

/-- The values of an argument list. -/
def evalArgs (env : List (Arg × Ptr)) : List Arg → Option (List Ptr)
  | [] => some []
  | a :: rest =>
    match evalArg env a with
    | none => none
    | some v =>
      match evalArgs env rest with
      | none => none
      | some vs => some (v :: vs)

/-- Run a statement list.  A call to a function defined in the translation unit
runs its body with the parameters bound to the argument values; a call to
`pb_release`, when the runtime declares it and nothing in the translation unit
defines it, runs the runtime's release routine `real` and records the call.
Each call spends one unit of `fuel`. -/
def exec {σ : Type} (real : Ptr → Ptr → σ → Option σ) (decls : List Decl) :
    Nat → List (Arg × Ptr) → List Stmt → σ → List (Ptr × Ptr) → Outcome σ
  | _, _, [], s, calls => .done s calls
  | 0, _, _ :: _, _, calls => .outOfFuel calls
  | fuel + 1, env, .call c args :: rest, s, calls =>
    match evalArgs env args with
    | none => .unresolved c
    | some vals =>
      match findDef decls c with
      | some (ps, body) =>
        match exec real decls fuel (ps.zip vals) body s calls with
        | .done s1 calls1 => exec real decls fuel env rest s1 calls1
        | r => r
      | none =>
        if c = .pb_release ∧ hasProto decls .pb_release = true then
          match vals with
          | [f, d] =>
            match real f d s with
            | some s1 => exec real decls fuel env rest s1 (calls ++ [(f, d)])
            | none => .failed (calls ++ [(f, d)])
          | _ => .unresolved c
        else .unresolved c

/-- A caller's statement in a translation unit that has included `tu`: the
statement is macro-expanded where it stands and run over the declarations of
the translation unit. -/
def runCall {σ : Type} (real : Ptr → Ptr → σ → Option σ) (rt : Runtime)
    (tu : List Header) (fuel : Nat) (st : Stmt) (s : σ) : Outcome σ :=
  exec real (runTU rt tu).decls fuel [] (expand (runTU rt tu).macros st) s []

/-- A direct call of the runtime's release routine. -/
def directCall {σ : Type} (real : Ptr → Ptr → σ → Option σ) (f d : Ptr) (s : σ) :
    Outcome σ :=
  match real f d s with
  | some s1 => .done s1 [(f, d)]
  | none => .failed [(f, d)]

/-! ## Auxiliary definitions for the statements -/

/-- The include guard of a header. -/
def Header.guard : Header → Name
  | .NanopbHelpers => .NanopbHelpers_h
  | .NanopbWrapper => .NanopbWrapper_h

/-- The state after lines 1 to 7 of `NanopbHelpers.h` when its guard was not
defined: the point where `#ifndef pb_release` is evaluated. -/
def afterPrologue (rt : Runtime) (s : PPState) : PPState :=
  includeSys rt .pb_encode (includeSys rt .pb_decode (includeSys rt .pb_common
    (includeSys rt .pb { s with macros := (.NanopbHelpers_h, ⟨none, []⟩) :: s.macros })))

/-- The state after lines 1 to 6 of `NanopbWrapper.h` when its guard was not
defined: the point where the body of `pb_release_wrapper` is read. -/
def beforeWrapper (rt : Runtime) (s : PPState) : PPState :=
  includeSys rt .pb_encode (includeSys rt .pb_decode (includeSys rt .pb_common
    { s with macros := (.NanopbWrapper_h, ⟨none, []⟩) :: s.macros }))

/-- The `#define`s of `pb_release` in force or shadowed at a point. -/
def releaseDefines (s : PPState) : List (Name × MacroDef) :=
  s.macros.filter (fun e => e.1 = .pb_release)

/-- The definitions of the function `pb_release_wrapper` emitted so far. -/
def wrapperDefinitions (s : PPState) : List Decl :=
  s.decls.filter (fun d =>
    match d with
    | .fundef f _ _ => f = .pb_release_wrapper
    | .proto _ _ => false)

/-- The include orders that the reachable states reduce to. -/
def canonical : List (List Header) :=
  [[], [.NanopbHelpers], [.NanopbWrapper], [.NanopbHelpers, .NanopbWrapper],
    [.NanopbWrapper, .NanopbHelpers]]

/-- The macro names that can still be expanded: defined and not hidden. -/
def pending (ms : List (Name × MacroDef)) (hide : List Name) : Finset Name :=
  (ms.map Prod.fst).toFinset \ hide.toFinset

/-- A runtime that declares `pb_release` as an ordinary function and defines no
macro of that name (nanopb built with `PB_ENABLE_MALLOC`). -/
def functionRuntime : Runtime := ⟨none, true⟩

/-- A runtime that defines `pb_release` as a macro and declares no function
(nanopb 0.4 without `PB_ENABLE_MALLOC`:
`#define pb_release(fields, dest_struct) PB_UNUSED(fields); PB_UNUSED(dest_struct);`,
with `PB_UNUSED` as identifier `other 0`). -/
def noMallocRuntime : Runtime :=
  ⟨some ⟨some [.fields, .dest_struct],
      [.call (.other 0) [.fields], .call (.other 0) [.dest_struct]]⟩, false⟩

/-- Processing `NanopbHelpers.h` after the includes `tu` leaves the name
`pb_release` to the runtime: its macro definition is the runtime's (none when
the runtime has only the function), the only `#define`s of it are the
runtime's, and no prototype of `pb_release_wrapper` is declared. -/
def helpersKeepsRelease (rt : Runtime) (tu : List Header) : Prop :=
  lookupMacro (includeHeader rt .NanopbHelpers (runTU rt tu)).macros .pb_release
      = rt.releaseMacro ∧
    releaseDefines (includeHeader rt .NanopbHelpers (runTU rt tu))
      = (match rt.releaseMacro with
         | some m => [(.pb_release, m)]
         | none => []) ∧
    wrapperProto ∉ (includeHeader rt .NanopbHelpers (runTU rt tu)).decls

/-! ## The auth-state stream handler declaration -/

/-- Nullability of an Objective-C object pointer type. -/
inductive Nullability where
  | nonnull
  | nullable
  | unspecified
  deriving DecidableEq

/-- Protocols named in `FLTAuthStateChannelStreamHandler.h`. -/
inductive Protocol where
  | FlutterStreamHandler
  deriving DecidableEq

/-- Object types named in `FLTAuthStateChannelStreamHandler.h`. -/
inductive ObjCType where
  | NSObject
  | FIRAuth
  | instancetype
  deriving DecidableEq

/-- A declaration `- (returnType)selector:(paramType)param;`. -/
structure MethodDecl where
  returnType : ObjCType
  returnNullability : Nullability
  paramType : ObjCType
  paramNullability : Nullability
  deriving DecidableEq

/-- An `@interface` with one initializer. -/
structure Interface where
  superclass : ObjCType
  protocols : List Protocol
  initWithAuth : MethodDecl
  deriving DecidableEq

/-- Nullability of a pointer type written without annotation: nonnull between
`NS_ASSUME_NONNULL_BEGIN` and `NS_ASSUME_NONNULL_END`. -/
def defaultNullability (assumeNonnull : Bool) : Nullability :=
  if assumeNonnull then .nonnull else .unspecified

/-- Lines 23 to 31 of `FLTAuthStateChannelStreamHandler.h`:
`@interface FLTAuthStateChannelStreamHandler : NSObject <FlutterStreamHandler>`
with `- (instancetype)initWithAuth:(FIRAuth *)auth;` inside the assume-nonnull
region. -/
def FLTAuthStateChannelStreamHandler_h : Interface :=
  { superclass := .NSObject
    protocols := [.FlutterStreamHandler]
    initWithAuth :=
      { returnType := .instancetype
        returnNullability := defaultNullability true
        paramType := .FIRAuth
        paramNullability := defaultNullability true } }

/-- A valid authentication handle, owned by the authentication SDK. -/
structure FIRAuth where
  handle : Nat
  deriving DecidableEq

/-- An instance of the stream handler, with the protocols its class conforms to. -/
structure FLTAuthStateChannelStreamHandler where
  conformsTo : List Protocol
  deriving DecidableEq

/-- Modelled from the spec: the implementation of `initWithAuth:` (the `.m`
file of `FLTAuthStateChannelStreamHandler`) is not among the sources; only the
declaration is.  The spec says the initializer accepts a valid authentication
handle and produces a non-null instance that is a capability-conformant stream
source.  `none` stands for `nil`. -/
def initWithAuth (_auth : FIRAuth) : Option FLTAuthStateChannelStreamHandler :=
  some ⟨FLTAuthStateChannelStreamHandler_h.protocols⟩

/-! ## Lemmas on the preprocessor -/

/-- No line: nothing changes. -/
theorem processLines_nil (rt : Runtime) (k : Nat) (s : PPState) :
    processLines rt [] k s = (k, s) := rfl

/-- The first line, then the rest. -/
theorem processLines_cons (rt : Runtime) (l : Line) (ls : List Line) (k : Nat)
    (s : PPState) :
    processLines rt (l :: ls) k s =
      processLines rt ls (processLine rt l k s).1 (processLine rt l k s).2 := rfl

/-- Two groups of lines are processed one after the other. -/
theorem processLines_append (rt : Runtime) (xs ys : List Line) (k : Nat) (s : PPState) :
    processLines rt (xs ++ ys) k s =
      processLines rt ys (processLines rt xs k s).1 (processLines rt xs k s).2 := by
  induction xs generalizing k s with
  | nil => rfl
  | cons l ls ih => simp only [List.cons_append, processLines_cons, ih]

/-- A runtime header changes the definition of no name but `pb_release`. -/
theorem lookup_includeSys (rt : Runtime) (h : SysHeader) (s : PPState) (n : Name)
    (hn : n ≠ .pb_release) :
    lookupMacro (includeSys rt h s).macros n = lookupMacro s.macros n := by
  unfold includeSys
  split
  · rfl
  · split
    · cases hr : rt.releaseMacro with
      | none => rfl
      | some m =>
        simp only [lookupMacro]
        rw [if_neg (fun e => hn e.symm)]
    · rfl

/-- Lines 1 to 7 of `NanopbHelpers.h` when the guard is not defined. -/
theorem prologue_unguarded (rt : Runtime) (s : PPState)
    (hg : (lookupMacro s.macros .NanopbHelpers_h).isSome = false) :
    processLines rt helpersPrologue 0 s = (0, afterPrologue rt s) := by
  simp only [helpersPrologue, processLines_cons, processLines_nil, processLine, activeLine, hg,
    if_true, afterPrologue]
  rfl

/-- Lines 10 to 13 when `pb_release` is a macro: skipped. -/
theorem shim_defined (rt : Runtime) (s : PPState)
    (hm : (lookupMacro s.macros .pb_release).isSome = true) :
    processLines rt releaseShim 0 s = (0, s) := by
  simp [releaseShim, processLines_cons, processLines_nil, processLine, activeLine,
    skippedLine, hm]

/-- Lines 10 to 13 when `pb_release` is not a macro: macro and prototype. -/
theorem shim_undefined (rt : Runtime) (s : PPState)
    (hm : (lookupMacro s.macros .pb_release).isSome = false) :
    processLines rt releaseShim 0 s =
      (0, { s with macros := (.pb_release, shimMacro) :: s.macros,
                   decls := s.decls ++ [wrapperProto] }) := by
  simp only [releaseShim, processLines_cons, processLines_nil, processLine, activeLine, hm,
    if_true]
  rfl

/-- Lines 10 to 13 close the conditional they open. -/
theorem shim_skip (rt : Runtime) (s : PPState) :
    (processLines rt releaseShim 0 s).1 = 0 := by
  cases hm : (lookupMacro s.macros .pb_release).isSome
  · rw [shim_undefined rt s hm]
  · rw [shim_defined rt s hm]

/-- The header `NanopbHelpers.h` when its guard is not defined. -/
theorem helpers_unguarded (rt : Runtime) (s : PPState)
    (hg : (lookupMacro s.macros .NanopbHelpers_h).isSome = false) :
    includeHeader rt .NanopbHelpers s =
      (processLines rt releaseShim 0 (afterPrologue rt s)).2 := by
  simp only [includeHeader, Header.lines, NanopbHelpers, processLines_append,
    prologue_unguarded rt s hg, shim_skip, processLines_cons, processLines_nil, processLine,
    activeLine, if_true]

/-- The header `NanopbWrapper.h` when its guard is not defined. -/
theorem wrapper_unguarded (rt : Runtime) (s : PPState)
    (hg : (lookupMacro s.macros .NanopbWrapper_h).isSome = false) :
    includeHeader rt .NanopbWrapper s =
      { beforeWrapper rt s with
        decls := (beforeWrapper rt s).decls ++
          [.fundef .pb_release_wrapper [.fields, .dest_struct]
            (expandStmts (beforeWrapper rt s).macros
              [.call .pb_release [.fields, .dest_struct]])] } := by
  simp only [includeHeader, Header.lines, NanopbWrapper, processLines_cons, processLines_nil,
    processLine, activeLine, hg, if_true, beforeWrapper]
  rfl

/-- A header whose guard is defined is skipped as a whole. -/
theorem includeHeader_guarded (rt : Runtime) (h : Header) (s : PPState)
    (hg : (lookupMacro s.macros h.guard).isSome = true) : includeHeader rt h s = s := by
  cases h
  · simp only [Header.guard] at hg
    simp [includeHeader, Header.lines, NanopbHelpers, helpersPrologue, releaseShim,
      processLines, processLine, activeLine, skippedLine, hg]
  · simp only [Header.guard] at hg
    simp [includeHeader, Header.lines, NanopbWrapper,
      processLines, processLine, activeLine, skippedLine, hg]

/-- Later definitions do not undefine a name. -/
theorem lookup_append_isSome (p ms : List (Name × MacroDef)) (n : Name)
    (h : (lookupMacro ms n).isSome = true) : (lookupMacro (p ++ ms) n).isSome = true := by
  induction p with
  | nil => exact h
  | cons e p ih =>
    obtain ⟨k, m⟩ := e
    simp only [List.cons_append, lookupMacro]
    split
    · rfl
    · exact ih

/-- A runtime header only adds macro definitions. -/
theorem includeSys_macros (rt : Runtime) (h : SysHeader) (s : PPState) :
    ∃ p, (includeSys rt h s).macros = p ++ s.macros := by
  unfold includeSys
  split
  · exact ⟨[], rfl⟩
  · split
    · cases hr : rt.releaseMacro with
      | none => exact ⟨[], rfl⟩
      | some m => exact ⟨[(.pb_release, m)], rfl⟩
    · exact ⟨[], rfl⟩

/-- A name defined before a runtime header is defined after it. -/
theorem includeSys_defined (rt : Runtime) (h : SysHeader) (s : PPState) (n : Name)
    (hn : (lookupMacro s.macros n).isSome = true) :
    (lookupMacro (includeSys rt h s).macros n).isSome = true := by
  obtain ⟨p, hp⟩ := includeSys_macros rt h s
  rw [hp]
  exact lookup_append_isSome p s.macros n hn

/-- After a header has been included its guard is defined. -/
theorem guard_after_include (rt : Runtime) (h : Header) (s : PPState) :
    (lookupMacro (includeHeader rt h s).macros h.guard).isSome = true := by
  cases hg : (lookupMacro s.macros h.guard).isSome
  · cases h
    · rw [helpers_unguarded rt s hg]
      have h1 : (lookupMacro (afterPrologue rt s).macros .NanopbHelpers_h).isSome = true := by
        unfold afterPrologue
        iterate 4 apply includeSys_defined
        simp [lookupMacro]
      cases hm : (lookupMacro (afterPrologue rt s).macros .pb_release).isSome
      · rw [shim_undefined rt _ hm]
        simpa [lookupMacro, Header.guard] using h1
      · rw [shim_defined rt _ hm]
        exact h1
    · rw [wrapper_unguarded rt s hg]
      show (lookupMacro (beforeWrapper rt s).macros .NanopbWrapper_h).isSome = true
      unfold beforeWrapper
      iterate 3 apply includeSys_defined
      simp [lookupMacro]
  · rw [includeHeader_guarded rt h s hg]
    exact hg

/-- A header only adds macro definitions. -/
theorem includeHeader_macros (rt : Runtime) (h : Header) (s : PPState) :
    ∃ p, (includeHeader rt h s).macros = p ++ s.macros := by
  cases hg : (lookupMacro s.macros h.guard).isSome
  · cases h
    · rw [helpers_unguarded rt s hg]
      have h1 : ∃ p, (afterPrologue rt s).macros = p ++ s.macros := by
        unfold afterPrologue
        obtain ⟨p1, e1⟩ := includeSys_macros rt .pb
          { s with macros := (.NanopbHelpers_h, ⟨none, []⟩) :: s.macros }
        obtain ⟨p2, e2⟩ := includeSys_macros rt .pb_common (includeSys rt .pb
          { s with macros := (.NanopbHelpers_h, ⟨none, []⟩) :: s.macros })
        obtain ⟨p3, e3⟩ := includeSys_macros rt .pb_decode (includeSys rt .pb_common
          (includeSys rt .pb { s with macros := (.NanopbHelpers_h, ⟨none, []⟩) :: s.macros }))
        obtain ⟨p4, e4⟩ := includeSys_macros rt .pb_encode (includeSys rt .pb_decode
          (includeSys rt .pb_common
            (includeSys rt .pb { s with macros := (.NanopbHelpers_h, ⟨none, []⟩) :: s.macros })))
        refine ⟨p4 ++ p3 ++ p2 ++ p1 ++ [(.NanopbHelpers_h, ⟨none, []⟩)], ?_⟩
        rw [e4, e3, e2, e1]
        simp
      obtain ⟨p, hp⟩ := h1
      cases hm : (lookupMacro (afterPrologue rt s).macros .pb_release).isSome
      · rw [shim_undefined rt _ hm]
        exact ⟨(.pb_release, shimMacro) :: p, by simp [hp]⟩
      · rw [shim_defined rt _ hm]
        exact ⟨p, hp⟩
    · rw [wrapper_unguarded rt s hg]
      show ∃ p, (beforeWrapper rt s).macros = p ++ s.macros
      unfold beforeWrapper
      obtain ⟨p2, e2⟩ := includeSys_macros rt .pb_common
        { s with macros := (.NanopbWrapper_h, ⟨none, []⟩) :: s.macros }
      obtain ⟨p3, e3⟩ := includeSys_macros rt .pb_decode (includeSys rt .pb_common
        { s with macros := (.NanopbWrapper_h, ⟨none, []⟩) :: s.macros })
      obtain ⟨p4, e4⟩ := includeSys_macros rt .pb_encode (includeSys rt .pb_decode
        (includeSys rt .pb_common
          { s with macros := (.NanopbWrapper_h, ⟨none, []⟩) :: s.macros }))
      refine ⟨p4 ++ p3 ++ p2 ++ [(.NanopbWrapper_h, ⟨none, []⟩)], ?_⟩
      rw [e4, e3, e2]
      simp
  · rw [includeHeader_guarded rt h s hg]
    exact ⟨[], rfl⟩

/-- One more include at the end of a translation unit. -/
theorem runTU_snoc (rt : Runtime) (tu : List Header) (h : Header) :
    runTU rt (tu ++ [h]) = includeHeader rt h (runTU rt tu) := by
  simp [runTU, List.foldl_append]

/-- The guard of every header a translation unit has included is defined. -/
theorem guard_of_mem (rt : Runtime) (tu : List Header) (h : Header) (hm : h ∈ tu) :
    (lookupMacro (runTU rt tu).macros h.guard).isSome = true := by
  induction tu using List.reverseRecOn with
  | nil => cases hm
  | append_singleton tu g ih =>
    rw [runTU_snoc]
    rcases List.mem_append.mp hm with h1 | h1
    · obtain ⟨p, hp⟩ := includeHeader_macros rt g (runTU rt tu)
      rw [hp]
      exact lookup_append_isSome p _ _ (ih h1)
    · rw [List.mem_singleton] at h1
      subst h1
      exact guard_after_include rt h (runTU rt tu)

/-- Including a header the translation unit already has changes nothing. -/
theorem include_again (rt : Runtime) (tu : List Header) (h : Header) (hm : h ∈ tu) :
    includeHeader rt h (runTU rt tu) = runTU rt tu :=
  includeHeader_guarded rt h _ (guard_of_mem rt tu h hm)

/-- Every translation unit ends in the state of one of the five include orders
without repetition, with the same headers included. -/
theorem reach (rt : Runtime) (tu : List Header) :
    ∃ c ∈ canonical, runTU rt tu = runTU rt c ∧ ∀ g, g ∈ c ↔ g ∈ tu := by
  induction tu using List.reverseRecOn with
  | nil => exact ⟨[], by simp [canonical], rfl, by simp⟩
  | append_singleton tu h ih =>
    obtain ⟨c, hc, he, hmem⟩ := ih
    by_cases hm : h ∈ c
    · refine ⟨c, hc, ?_, ?_⟩
      · rw [runTU_snoc, he, include_again rt c h hm]
      · intro g
        rw [List.mem_append, List.mem_singleton, ← hmem]
        constructor
        · exact Or.inl
        · rintro (hg | rfl)
          · exact hg
          · exact hm
    · refine ⟨c ++ [h], ?_, ?_, ?_⟩
      · revert hm
        simp only [canonical, List.mem_cons, List.mem_singleton, List.not_mem_nil,
          or_false] at hc
        rcases hc with rfl | rfl | rfl | rfl | rfl <;> cases h <;> simp [canonical]
      · rw [runTU_snoc, runTU_snoc, he]
      · intro g
        simp only [List.mem_append, List.mem_singleton, hmem]

/-! ## Macro expansion never runs out of fuel -/

/-- A name with a definition is among the defined names. -/
theorem lookup_mem_keys (ms : List (Name × MacroDef)) (c : Name) (m : MacroDef)
    (h : lookupMacro ms c = some m) : c ∈ ms.map Prod.fst := by
  induction ms with
  | nil => simp [lookupMacro] at h
  | cons e ms ih =>
    obtain ⟨k, v⟩ := e
    simp only [lookupMacro] at h
    by_cases hk : k = c
    · simp [hk]
    · rw [if_neg hk] at h
      simp [ih h]

/-- Hiding a defined name that was not hidden leaves fewer names to expand. -/
theorem pending_cons_lt (ms : List (Name × MacroDef)) (hide : List Name) (c : Name)
    (m : MacroDef) (hc : c ∉ hide) (hl : lookupMacro ms c = some m) :
    (pending ms (c :: hide)).card < (pending ms hide).card := by
  apply Finset.card_lt_card
  rw [Finset.ssubset_iff_of_subset]
  · refine ⟨c, ?_, ?_⟩
    · simp [pending, hc, lookup_mem_keys ms c m hl]
    · simp [pending]
  · intro x hx
    simp only [pending, Finset.mem_sdiff, List.mem_toFinset, List.mem_cons, not_or] at hx ⊢
    exact ⟨hx.1, hx.2.2⟩

/-- One more unit of fuel changes nothing once the fuel covers the macros that
can still be expanded. -/
theorem expandStmt_fuel_succ (ms : List (Name × MacroDef)) :
    ∀ (fuel : Nat) (hide : List Name) (st : Stmt), (pending ms hide).card ≤ fuel →
      expandStmt ms (fuel + 1) hide st = expandStmt ms fuel hide st := by
  intro fuel
  induction fuel with
  | zero =>
    intro hide st hp
    obtain ⟨c, args⟩ := st
    simp only [expandStmt]
    split
    · rfl
    · rename_i hc
      cases hl : lookupMacro ms c with
      | none => rfl
      | some m =>
        have := pending_cons_lt ms hide c m hc hl
        omega
  | succ n ih =>
    intro hide st hp
    obtain ⟨c, args⟩ := st
    rw [expandStmt, expandStmt]
    split
    · rfl
    · rename_i hc
      cases hl : lookupMacro ms c with
      | none => rfl
      | some m =>
        have hlt := pending_cons_lt ms hide c m hc hl
        simp only
        cases instantiate m args with
        | none => rfl
        | some body =>
          simp only
          congr 1
          funext st
          exact ih (c :: hide) st (by omega)

/-- There are no more names to expand than definitions. -/
theorem pending_le_length (ms : List (Name × MacroDef)) :
    (pending ms []).card ≤ ms.length := by
  calc (pending ms []).card ≤ (ms.map Prod.fst).toFinset.card :=
        Finset.card_le_card Finset.sdiff_subset
    _ ≤ (ms.map Prod.fst).length := List.toFinset_card_le _
    _ = ms.length := List.length_map _ _

/-- The fuel `expand` starts with is enough: any larger amount gives the same
expansion. -/
theorem expand_fuel_enough (ms : List (Name × MacroDef)) (st : Stmt) (k : Nat) :
    expandStmt ms (ms.length + k) [] st = expand ms st := by
  induction k with
  | zero => rfl
  | succ k ih =>
    rw [← ih, ← Nat.add_assoc]
    exact expandStmt_fuel_succ ms _ [] st (by have := pending_le_length ms; omega)

/-- A use of `pb_release(a, b)` where the shim macro is in force and
`pb_release_wrapper` is not a macro expands to `pb_release_wrapper(a, b)`. -/
theorem expand_of_lookup (ms : List (Name × MacroDef)) (a b : Arg)
    (hr : lookupMacro ms .pb_release = some shimMacro)
    (hw : lookupMacro ms .pb_release_wrapper = none) :
    expand ms (.call .pb_release [a, b]) = [.call .pb_release_wrapper [a, b]] := by
  cases ms with
  | nil => simp [lookupMacro] at hr
  | cons e ms =>
    have hi : instantiate shimMacro [a, b] = some [.call .pb_release_wrapper [a, b]] := by
      simp [instantiate, shimMacro, substArg]
    simp only [expand, List.length_cons, expandStmt, List.not_mem_nil, if_false, hr, hi,
      List.flatMap_cons, List.flatMap_nil, List.append_nil]
    cases ms.length with
    | zero => rfl
    | succ n => simp [expandStmt, hw]

/-! ## Lemmas on execution -/

/-- A function `pb_release_wrapper` whose body is the call
`pb_release_wrapper(fields, dest_struct)` never returns: every step budget is
exhausted, and the runtime's routine is not reached. -/
theorem self_call_diverges {σ : Type} (real : Ptr → Ptr → σ → Option σ) (D : List Decl)
    (hD : findDef D .pb_release_wrapper =
      some ([.fields, .dest_struct], [.call .pb_release_wrapper [.fields, .dest_struct]])) :
    ∀ (fuel : Nat) (env : List (Arg × Ptr)) (a1 a2 : Arg) (vf vd : Ptr) (s : σ)
      (calls : List (Ptr × Ptr)), evalArgs env [a1, a2] = some [vf, vd] →
      exec real D fuel env [.call .pb_release_wrapper [a1, a2]] s calls = .outOfFuel calls := by
  intro fuel
  induction fuel with
  | zero => intro env a1 a2 vf vd s calls _; rfl
  | succ n ih =>
    intro env a1 a2 vf vd s calls hev
    have h2 : exec real D n ([Arg.fields, Arg.dest_struct].zip [vf, vd])
        [.call .pb_release_wrapper [.fields, .dest_struct]] s calls = .outOfFuel calls :=
      ih _ .fields .dest_struct vf vd s calls (by simp [evalArgs, evalArg, lookupArg])
    simp only [exec, hev, hD, h2]

/-- With `NanopbHelpers.h` included before `NanopbWrapper.h` and `pb_release`
an ordinary function of the runtime, the emitted body of `pb_release_wrapper`
is a call of `pb_release_wrapper`. -/
theorem wrapper_body_helpers_first :
    findDef (runTU functionRuntime [.NanopbHelpers, .NanopbWrapper]).decls
        .pb_release_wrapper =
      some ([.fields, .dest_struct], [.call .pb_release_wrapper [.fields, .dest_struct]]) := by
  decide

/-- With `NanopbWrapper.h` included before `NanopbHelpers.h` and `pb_release`
an ordinary function of the runtime, the emitted body of `pb_release_wrapper`
is a call of the runtime's `pb_release`. -/
theorem wrapper_body_wrapper_first :
    findDef (runTU functionRuntime [.NanopbWrapper, .NanopbHelpers]).decls
        .pb_release_wrapper =
      some ([.fields, .dest_struct], [.call .pb_release [.fields, .dest_struct]]) := by
  decide

/-- Helpers first: a call of the wrapper exhausts every step budget without a
call of the runtime's routine. -/
theorem wrapper_call_helpers_first {σ : Type} (real : Ptr → Ptr → σ → Option σ)
    (fuel : Nat) (f d : Ptr) (s : σ) :
    runCall real functionRuntime [.NanopbHelpers, .NanopbWrapper] fuel
      (.call .pb_release_wrapper [.lit f, .lit d]) s = .outOfFuel [] := by
  have he : expand (runTU functionRuntime [.NanopbHelpers, .NanopbWrapper]).macros
      (.call .pb_release_wrapper [.lit f, .lit d])
      = [.call .pb_release_wrapper [.lit f, .lit d]] := rfl
  unfold runCall
  rw [he]
  exact self_call_diverges real _ wrapper_body_helpers_first fuel [] _ _ f d s []
    (by simp [evalArgs, evalArg])

/-- Helpers first: the macro invocation `pb_release(f, d)` exhausts every step
budget without a call of the runtime's routine. -/
theorem release_call_helpers_first {σ : Type} (real : Ptr → Ptr → σ → Option σ)
    (fuel : Nat) (f d : Ptr) (s : σ) :
    runCall real functionRuntime [.NanopbHelpers, .NanopbWrapper] fuel
      (.call .pb_release [.lit f, .lit d]) s = .outOfFuel [] := by
  have he : expand (runTU functionRuntime [.NanopbHelpers, .NanopbWrapper]).macros
      (.call .pb_release [.lit f, .lit d])
      = [.call .pb_release_wrapper [.lit f, .lit d]] := rfl
  unfold runCall
  rw [he]
  exact self_call_diverges real _ wrapper_body_helpers_first fuel [] _ _ f d s []
    (by simp [evalArgs, evalArg])

/-- The declarations of the translation unit that includes `NanopbWrapper.h`
and then `NanopbHelpers.h`, with `pb_release` a function of the runtime. -/
theorem decls_wrapper_first :
    (runTU functionRuntime [.NanopbWrapper, .NanopbHelpers]).decls =
      [.proto .pb_release [.fields, .dest_struct],
       .fundef .pb_release_wrapper [.fields, .dest_struct]
         [.call .pb_release [.fields, .dest_struct]],
       .proto .pb_release_wrapper [.fields, .dest_struct]] := by
  decide

/-- Wrapper first: the macro invocation `pb_release(f, d)` is one call of the
runtime's routine with `(f, d)`, for every step budget of at least two calls. -/
theorem release_call_wrapper_first {σ : Type} (real : Ptr → Ptr → σ → Option σ)
    (fuel : Nat) (f d : Ptr) (s : σ) :
    runCall real functionRuntime [.NanopbWrapper, .NanopbHelpers] (fuel + 2)
      (.call .pb_release [.lit f, .lit d]) s = directCall real f d s := by
  have he : expand (runTU functionRuntime [.NanopbWrapper, .NanopbHelpers]).macros
      (.call .pb_release [.lit f, .lit d])
      = [.call .pb_release_wrapper [.lit f, .lit d]] := rfl
  unfold runCall
  rw [he, decls_wrapper_first]
  cases hr : real f d s <;>
    simp [exec, evalArgs, evalArg, lookupArg, findDef, hasProto, directCall, hr]

/-- Wrapper first: a call of the wrapper is one call of the runtime's routine
with the same arguments, for every step budget of at least two calls. -/
theorem wrapper_call_wrapper_first {σ : Type} (real : Ptr → Ptr → σ → Option σ)
    (fuel : Nat) (f d : Ptr) (s : σ) :
    runCall real functionRuntime [.NanopbWrapper, .NanopbHelpers] (fuel + 2)
      (.call .pb_release_wrapper [.lit f, .lit d]) s = directCall real f d s := by
  have he : expand (runTU functionRuntime [.NanopbWrapper, .NanopbHelpers]).macros
      (.call .pb_release_wrapper [.lit f, .lit d])
      = [.call .pb_release_wrapper [.lit f, .lit d]] := rfl
  unfold runCall
  rw [he, decls_wrapper_first]
  cases hr : real f d s <;>
    simp [exec, evalArgs, evalArg, lookupArg, findDef, hasProto, directCall, hr]

/-! ## The claims -/

/-- C1, evaluated where it fails: the runtime declares `pb_release` as a
function and defines no macro of that name, the translation unit includes
`NanopbHelpers.h` and then `NanopbWrapper.h`.  The macro invocation
`pb_release(f, d)` then makes no call of the runtime's release routine and
does not return, whatever the step budget; it is not the single call
`(f, d)` of the routine. -/
theorem release_invocation_never_reaches_runtime (σ : Type) (real : Ptr → Ptr → σ → Option σ)
    (fuel : Nat) (f d : Ptr) (s : σ) :
    functionRuntime.releaseMacro = none ∧
    runCall real functionRuntime [.NanopbHelpers, .NanopbWrapper] fuel
        (.call .pb_release [.lit f, .lit d]) s = .outOfFuel [] ∧
    runCall real functionRuntime [.NanopbHelpers, .NanopbWrapper] fuel
        (.call .pb_release [.lit f, .lit d]) s ≠ directCall real f d s := by
  refine ⟨rfl, release_call_helpers_first real fuel f d s, ?_⟩
  rw [release_call_helpers_first real fuel f d s]
  unfold directCall
  cases real f d s <;> simp

/-- C2 as stated fails: with a runtime that provides `pb_release` as an
ordinary function only, processing `NanopbHelpers.h` does not leave the name
to the runtime (it defines the macro and declares the wrapper). -/
theorem helpers_shadows_runtime_function :
    functionRuntime.releaseFn = true ∧ ¬ helpersKeepsRelease functionRuntime [] := by
  refine ⟨rfl, ?_⟩
  intro h
  have h1 := h.1
  revert h1
  decide

/-- C2, amended: for every runtime that provides `pb_release` as a macro and
every sequence of earlier includes, processing `NanopbHelpers.h` adds no
`#define` of `pb_release` and no prototype of `pb_release_wrapper`, and the
name still resolves to the runtime's macro. -/
theorem helpers_keeps_runtime_definition (rt : Runtime) (tu : List Header)
    (hm : rt.releaseMacro.isSome = true) : helpersKeepsRelease rt tu := by
  unfold helpersKeepsRelease
  rw [← runTU_snoc]
  obtain ⟨c, hc, he, hmem⟩ := reach rt (tu ++ [.NanopbHelpers])
  rw [he]
  have hH : Header.NanopbHelpers ∈ c := (hmem _).mpr (by simp)
  simp only [canonical, List.mem_cons, List.mem_singleton, List.not_mem_nil, or_false] at hc
  rcases rt with ⟨_ | m, _ | _⟩
  · simp at hm
  · simp at hm
  all_goals
    rcases hc with rfl | rfl | rfl | rfl | rfl
    · simp at hH
    · simp [runTU, includeHeader, Header.lines, NanopbHelpers, NanopbWrapper, helpersPrologue,
        releaseShim, processLines, processLine, activeLine, skippedLine, includeSys,
        lookupMacro, PPState.init, releaseDefines, wrapperProto]
    · simp at hH
    · simp [runTU, includeHeader, Header.lines, NanopbHelpers, NanopbWrapper, helpersPrologue,
        releaseShim, processLines, processLine, activeLine, skippedLine, includeSys,
        lookupMacro, PPState.init, releaseDefines, wrapperProto]
    · simp [runTU, includeHeader, Header.lines, NanopbHelpers, NanopbWrapper, helpersPrologue,
        releaseShim, processLines, processLine, activeLine, skippedLine, includeSys,
        lookupMacro, PPState.init, releaseDefines, wrapperProto]

/-- Witness of C2 amended: the runtime whose `pb_decode.h` defines the macro. -/
theorem helpers_keeps_runtime_definition_witness :
    noMallocRuntime.releaseMacro.isSome = true ∧ helpersKeepsRelease noMallocRuntime [] :=
  ⟨by decide, helpers_keeps_runtime_definition noMallocRuntime [] (by decide)⟩

/-- C3, evaluated where it fails: same runtime and include order as for C1.
A call `pb_release_wrapper(f, d)` makes no call of the runtime's release
routine and does not return, so it is not equal to the direct call. -/
theorem wrapper_not_equal_to_direct_call (σ : Type) (real : Ptr → Ptr → σ → Option σ)
    (fuel : Nat) (f d : Ptr) (s : σ) :
    runCall real functionRuntime [.NanopbHelpers, .NanopbWrapper] fuel
        (.call .pb_release_wrapper [.lit f, .lit d]) s = .outOfFuel [] ∧
    runCall real functionRuntime [.NanopbHelpers, .NanopbWrapper] fuel
        (.call .pb_release_wrapper [.lit f, .lit d]) s ≠ directCall real f d s := by
  refine ⟨wrapper_call_helpers_first real fuel f d s, ?_⟩
  rw [wrapper_call_helpers_first real fuel f d s]
  unfold directCall
  cases real f d s <;> simp

/-- C4: lines 10 to 13 of `NanopbHelpers.h`, from any state.  When `pb_release`
is not a macro they define it as the function-like macro with parameters
`(fields, dest_struct)`, whose instance at `(a, b)` is exactly the call
`pb_release_wrapper(a, b)`, and declare the prototype of
`pb_release_wrapper`; when it is a macro they change nothing.  The header
reaches these lines, after its runtime includes, when its guard is not
defined, and is skipped otherwise. -/
theorem release_shim_block (rt : Runtime) (s : PPState) (a b : Arg) :
    (processLines rt releaseShim 0 s).2 =
        (if (lookupMacro s.macros .pb_release).isSome = true then s
         else { s with macros := (.pb_release, shimMacro) :: s.macros,
                       decls := s.decls ++ [wrapperProto] }) ∧
    shimMacro.params = some [.fields, .dest_struct] ∧
    instantiate shimMacro [a, b] = some [.call .pb_release_wrapper [a, b]] ∧
    wrapperProto = .proto .pb_release_wrapper [.fields, .dest_struct] ∧
    includeHeader rt .NanopbHelpers s =
        (if (lookupMacro s.macros .NanopbHelpers_h).isSome = true then s
         else (processLines rt releaseShim 0 (afterPrologue rt s)).2) := by
  refine ⟨?_, rfl, ?_, rfl, ?_⟩
  · cases hm : (lookupMacro s.macros .pb_release).isSome
    · rw [shim_undefined rt s hm]
      simp
    · rw [shim_defined rt s hm]
      simp
  · simp [instantiate, shimMacro, substArg]
  · cases hg : (lookupMacro s.macros .NanopbHelpers_h).isSome
    · rw [helpers_unguarded rt s hg]
      simp
    · rw [includeHeader_guarded rt .NanopbHelpers s hg]
      simp

/-- C5: for every runtime and every translation unit that has included
`NanopbHelpers.h`, the name `pb_release` is the runtime's own macro, or a use
`pb_release(a, b)` expands to `pb_release_wrapper(a, b)` and the prototype of
`pb_release_wrapper` is declared. -/
theorem release_resolves_after_helpers (rt : Runtime) (tu : List Header) (a b : Arg)
    (h : Header.NanopbHelpers ∈ tu) :
    (∃ m, rt.releaseMacro = some m ∧
        lookupMacro (runTU rt tu).macros .pb_release = some m) ∨
    (rt.releaseMacro = none ∧
      expand (runTU rt tu).macros (.call .pb_release [a, b])
        = [.call .pb_release_wrapper [a, b]] ∧
      wrapperProto ∈ (runTU rt tu).decls) := by
  obtain ⟨c, hc, he, hmem⟩ := reach rt tu
  rw [he]
  have hH : Header.NanopbHelpers ∈ c := (hmem _).mpr h
  simp only [canonical, List.mem_cons, List.mem_singleton, List.not_mem_nil, or_false] at hc
  rcases rt with ⟨_ | m, _ | _⟩
  case mk.some.false | mk.some.true =>
    refine Or.inl ⟨m, rfl, ?_⟩
    rcases hc with rfl | rfl | rfl | rfl | rfl
    · simp at hH
    · simp [runTU, includeHeader, Header.lines, NanopbHelpers, NanopbWrapper, helpersPrologue,
        releaseShim, processLines, processLine, activeLine, skippedLine, includeSys,
        lookupMacro, PPState.init]
    · simp at hH
    · simp [runTU, includeHeader, Header.lines, NanopbHelpers, NanopbWrapper, helpersPrologue,
        releaseShim, processLines, processLine, activeLine, skippedLine, includeSys,
        lookupMacro, PPState.init]
    · simp [runTU, includeHeader, Header.lines, NanopbHelpers, NanopbWrapper, helpersPrologue,
        releaseShim, processLines, processLine, activeLine, skippedLine, includeSys,
        lookupMacro, PPState.init]
  all_goals
    refine Or.inr ⟨rfl, ?_, ?_⟩
    · apply expand_of_lookup
      · rcases hc with rfl | rfl | rfl | rfl | rfl
        · simp at hH
        · simp [runTU, includeHeader, Header.lines, NanopbHelpers, NanopbWrapper,
            helpersPrologue, releaseShim, processLines, processLine, activeLine, skippedLine,
            includeSys, lookupMacro, PPState.init]
        · simp at hH
        · simp [runTU, includeHeader, Header.lines, NanopbHelpers, NanopbWrapper,
            helpersPrologue, releaseShim, processLines, processLine, activeLine, skippedLine,
            includeSys, lookupMacro, PPState.init]
        · simp [runTU, includeHeader, Header.lines, NanopbHelpers, NanopbWrapper,
            helpersPrologue, releaseShim, processLines, processLine, activeLine, skippedLine,
            includeSys, lookupMacro, PPState.init]
      · rcases hc with rfl | rfl | rfl | rfl | rfl <;>
          simp [runTU, includeHeader, Header.lines, NanopbHelpers, NanopbWrapper,
            helpersPrologue, releaseShim, processLines, processLine, activeLine, skippedLine,
            includeSys, lookupMacro, PPState.init]
    · rcases hc with rfl | rfl | rfl | rfl | rfl
      · simp at hH
      · simp [runTU, includeHeader, Header.lines, NanopbHelpers, NanopbWrapper,
          helpersPrologue, releaseShim, processLines, processLine, activeLine, skippedLine,
          includeSys, lookupMacro, PPState.init, wrapperProto]
      · simp at hH
      · simp [runTU, includeHeader, Header.lines, NanopbHelpers, NanopbWrapper,
          helpersPrologue, releaseShim, processLines, processLine, activeLine, skippedLine,
          includeSys, lookupMacro, PPState.init, wrapperProto]
      · simp [runTU, includeHeader, Header.lines, NanopbHelpers, NanopbWrapper,
          helpersPrologue, releaseShim, processLines, processLine, activeLine, skippedLine,
          includeSys, lookupMacro, PPState.init, wrapperProto]

/-- Witness of C5: the function-only runtime, `NanopbHelpers.h` alone. -/
theorem release_resolves_after_helpers_witness :
    Header.NanopbHelpers ∈ [Header.NanopbHelpers] ∧
    ((∃ m, functionRuntime.releaseMacro = some m ∧
        lookupMacro (runTU functionRuntime [.NanopbHelpers]).macros .pb_release = some m) ∨
    (functionRuntime.releaseMacro = none ∧
      expand (runTU functionRuntime [.NanopbHelpers]).macros
          (.call .pb_release [.lit 1, .lit 2])
        = [.call .pb_release_wrapper [.lit 1, .lit 2]] ∧
      wrapperProto ∈ (runTU functionRuntime [.NanopbHelpers]).decls)) :=
  ⟨by decide,
    release_resolves_after_helpers functionRuntime [.NanopbHelpers] (.lit 1) (.lit 2)
      (by decide)⟩

/-- C6: for every valid authentication handle the initializer returns a
non-null instance, and the instance conforms to `FlutterStreamHandler`; the
declaration gives the return type as nonnull. -/
theorem initWithAuth_nonnull_conforming (auth : FIRAuth) :
    ∃ inst, initWithAuth auth = some inst ∧
      Protocol.FlutterStreamHandler ∈ inst.conformsTo ∧
      FLTAuthStateChannelStreamHandler_h.initWithAuth.returnNullability = .nonnull :=
  ⟨⟨FLTAuthStateChannelStreamHandler_h.protocols⟩, rfl, by decide, rfl⟩

/-- C7, evaluated on both include orders with `pb_release` an ordinary
function of the runtime.  `NanopbWrapper.h` first: the body of
`pb_release_wrapper` calls the runtime's `pb_release`.  `NanopbHelpers.h`
first: the body, after macro expansion, calls `pb_release_wrapper` itself, and
a call of the wrapper exhausts every step budget whatever the runtime's
routine does. -/
theorem wrapper_body_calls_itself :
    findDef (runTU functionRuntime [.NanopbWrapper, .NanopbHelpers]).decls
        .pb_release_wrapper =
      some ([.fields, .dest_struct], [.call .pb_release [.fields, .dest_struct]]) ∧
    findDef (runTU functionRuntime [.NanopbHelpers, .NanopbWrapper]).decls
        .pb_release_wrapper =
      some ([.fields, .dest_struct], [.call .pb_release_wrapper [.fields, .dest_struct]]) ∧
    ∀ (σ : Type) (real : Ptr → Ptr → σ → Option σ) (fuel : Nat) (f d : Ptr) (s : σ),
      runCall real functionRuntime [.NanopbHelpers, .NanopbWrapper] fuel
        (.call .pb_release_wrapper [.lit f, .lit d]) s = .outOfFuel [] :=
  ⟨wrapper_body_wrapper_first, wrapper_body_helpers_first,
    fun _ real fuel f d s => wrapper_call_helpers_first real fuel f d s⟩

/-- C8: from every preprocessor state, including either header a second time
changes nothing; and in every translation unit there is at most one `#define`
of `pb_release` and at most one definition of `pb_release_wrapper`. -/
theorem include_idempotent :
    (∀ (rt : Runtime) (h : Header) (s : PPState),
      includeHeader rt h (includeHeader rt h s) = includeHeader rt h s) ∧
    (∀ (rt : Runtime) (tu : List Header),
      (releaseDefines (runTU rt tu)).length ≤ 1 ∧
        (wrapperDefinitions (runTU rt tu)).length ≤ 1) := by
  refine ⟨fun rt h s => includeHeader_guarded rt h _ (guard_after_include rt h s), ?_⟩
  intro rt tu
  obtain ⟨c, hc, he, -⟩ := reach rt tu
  rw [he]
  simp only [canonical, List.mem_cons, List.mem_singleton, List.not_mem_nil, or_false] at hc
  rcases rt with ⟨_ | m, _ | _⟩ <;> rcases hc with rfl | rfl | rfl | rfl | rfl <;>
    simp [runTU, includeHeader, Header.lines, NanopbHelpers, NanopbWrapper, helpersPrologue,
      releaseShim, processLines, processLine, activeLine, skippedLine, includeSys,
      lookupMacro, releaseDefines, wrapperDefinitions, PPState.init]

end Snap2Done
